import Mathlib

/-!
Verification of the Imagine-core lexer.

The development shallowly embeds the two source files of the repository:
`src/statemachine.rs` (the token type, the per-state transition rules, and the
state machine) and `src/lexer.rs` (the driver that feeds characters into the
machine and collects the tokens).  Rust code that can panic is embedded into a
result type with an explicit panic outcome, one panic kind per `unwrap` site of
the source.
-/

set_option maxRecDepth 10000

namespace Imagine

/-- The error enum of the crate (`common::Errors`); the lexer only ever raises
its `SyntaxError` variant. -/
inductive Errors where
  | SyntaxError
deriving DecidableEq, Repr

/-- `Token` from statemachine.rs.  `Number` carries the parsed i32 payload (as
an `Int`; the parse is only ever performed when the value fits in i32, see
`parse_i32`).  `Float` keeps the accumulated lexeme text: the source parses it
to an `f32` at emission, and the payload is modelled here by the decimal text
that is parsed. -/
inductive Token where
  | Number (n : Int)
  | Operator (s : String)
  | Float (s : String)
  | Ident (s : String)
  | Keyword (s : String)
  | LPAR
  | RPAR
  | LBR
  | RBR
  | Text (s : String)
  | Blank
deriving DecidableEq, Repr

/-- The three distinct panic sites of the source: the driver's
`chars().nth(pos).unwrap()`, the `value.parse::<i32>().unwrap()` inside
`Number::get_token`, and the `(Blank {}).feed(input).unwrap()` re-dispatch in
the `Operator`, `Lpar`, `Rpar`, `Lbr` and `Rbr` states. -/
inductive PanicKind where
  | charLookup
  | parseIntFail
  | unwrapErr
deriving DecidableEq, Repr

/-- Outcome of running source code that can return a value, return an error,
or panic. -/
inductive TRes (α : Type) where
  | ok (v : α)
  | err (e : Errors)
  | panic (p : PanicKind)
deriving DecidableEq, Repr

/-- Sequencing: errors and panics propagate. -/
def TRes.bind {α β : Type} : TRes α → (α → TRes β) → TRes β
  | .ok v, f => f v
  | .err e, _ => .err e
  | .panic p, _ => .panic p

/-- `Result::unwrap()`: an `Err` value panics at the unwrap site. -/
def TRes.unwrap {α : Type} : TRes α → TRes α
  | .ok v => .ok v
  | .err _ => .panic .unwrapErr
  | .panic p => .panic p

/-- `is_operator` (statemachine.rs line 19). -/
def is_operator (c : Char) : Bool :=
  (['+', '-', '=', '/', '*', '!', '<', '>', '~', '|', '&', '^'] : List Char).contains c

/-- `KEYWORD_LIST` (statemachine.rs line 26). -/
def KEYWORD_LIST : List String := ["if"]

/-- `char::is_whitespace` on the ASCII range (0x09-0x0D and 0x20); no other
white-space characters are exercised by the lexemes treated here. -/
def is_whitespace (c : Char) : Bool :=
  c == ' ' || c == '\t' || c == '\n' || c == '\x0b' || c == '\x0c' || c == '\r'

/-- `char::is_numeric` on the characters reachable in these claims: the ASCII
decimal digits 48-57. -/
def is_numeric (c : Char) : Bool :=
  48 ≤ c.toNat && c.toNat ≤ 57

/-- `char::is_alphabetic` on the Basic Latin and Latin-1 blocks: the ASCII
letters plus the Latin-1 letters U+00C0-U+00FF without the multiplication sign
U+00D7 and the division sign U+00F7.  The full Unicode Alphabetic table of the
source is not reproduced; the claims only exercise this fragment. -/
def is_alphabetic (c : Char) : Bool :=
  (65 ≤ c.toNat && c.toNat ≤ 90) || (97 ≤ c.toNat && c.toNat ≤ 122) ||
  (192 ≤ c.toNat && c.toNat ≤ 255 && !(c.toNat == 215) && !(c.toNat == 247))

/-- `char::is_alphanumeric`: alphabetic or numeric. -/
def is_alphanumeric (c : Char) : Bool :=
  is_alphabetic c || is_numeric c

/-- Decimal value of a digit string. -/
def digitsToNat (l : List Char) : Nat :=
  l.foldl (fun a c => 10 * a + (c.toNat - 48)) 0

/-- `str::parse::<i32>()` on the digit-only accumulators that `Number` can
hold: the parse succeeds exactly when the text is a nonempty digit string
whose value is at most `i32::MAX` = 2147483647, and fails (so that the
`.unwrap()` at the call site panics) on overflow. -/
def parse_i32 (s : String) : Option Int :=
  if s.data ≠ [] ∧ s.data.all (fun c => is_numeric c) ∧ digitsToNat s.data ≤ 2147483647
  then some ((digitsToNat s.data : Int)) else none

/-- The closed set of `State` implementations of statemachine.rs: the four
bracket states, `Operator`, `Ident` (with its `is_keyword` flag), `Float`,
`Number` (each carrying their accumulated text) and `Blank`. -/
inductive StateV where
  | Lpar
  | Rpar
  | Lbr
  | Rbr
  | Operator (value : String)
  | Ident (value : String) (is_keyword : Bool)
  | Float (value : String)
  | Number (value : String)
  | Blank
deriving DecidableEq, Repr

/-- `State::get_token` of every state.  `Number::get_token` unwraps the i32
parse and therefore panics when the accumulated value overflows. -/
def get_token : StateV → TRes Token
  | .Lpar => .ok .LPAR
  | .Rpar => .ok .RPAR
  | .Lbr => .ok .LBR
  | .Rbr => .ok .RBR
  | .Operator v => .ok (.Operator v)
  | .Ident v kw => if kw then .ok (.Keyword v) else .ok (.Ident v)
  | .Float v => .ok (.Float v)
  | .Number v =>
    match parse_i32 v with
    | some n => .ok (.Number n)
    | none => .panic .parseIntFail
  | .Blank => .ok .Blank

/-- `Blank::feed`: dispatch on the character class, `SyntaxError` otherwise. -/
def blank_feed (input : Char) : TRes (StateV × Option Token) :=
  if is_numeric input then .ok (.Number (String.mk [input]), none)
  else if is_alphabetic input || input == '_' then .ok (.Ident (String.mk [input]) false, none)
  else if is_whitespace input || input == '\n' then .ok (.Blank, none)
  else if is_operator input then .ok (.Operator (String.mk [input]), none)
  else if input == '(' then .ok (.Lpar, none)
  else if input == ')' then .ok (.Rpar, none)
  else if input == '{' then .ok (.Lbr, none)
  else if input == '}' then .ok (.Rbr, none)
  else .err .SyntaxError

/-- `State::feed` of every state, branch for branch.  The bracket states and
`Operator` (and the bracket branches of `Ident` and `Number`) re-dispatch the
character through `Blank::feed` with a `.unwrap()` on its `Result`, exactly as
the source does; `.unwrap` of an error is a panic, not a `SyntaxError`. -/
def feed : StateV → Char → TRes (StateV × Option Token)
  | .Lpar, input =>
    if is_whitespace input || input == '\n' then
      (get_token .Lpar).bind (fun t => .ok (.Blank, some t))
    else
      ((blank_feed input).unwrap).bind (fun u =>
        (get_token .Lpar).bind (fun t => .ok (u.1, some t)))
  | .Rpar, input =>
    if is_whitespace input || input == '\n' then
      (get_token .Rpar).bind (fun t => .ok (.Blank, some t))
    else
      ((blank_feed input).unwrap).bind (fun u =>
        (get_token .Rpar).bind (fun t => .ok (u.1, some t)))
  | .Lbr, input =>
    if is_whitespace input || input == '\n' then
      (get_token .Lbr).bind (fun t => .ok (.Blank, some t))
    else
      ((blank_feed input).unwrap).bind (fun u =>
        (get_token .Lbr).bind (fun t => .ok (u.1, some t)))
  | .Rbr, input =>
    if is_whitespace input || input == '\n' then
      (get_token .Rbr).bind (fun t => .ok (.Blank, some t))
    else
      ((blank_feed input).unwrap).bind (fun u =>
        (get_token .Rbr).bind (fun t => .ok (u.1, some t)))
  | .Operator v, input =>
    if is_operator input then .ok (.Operator (v.push input), none)
    else if is_whitespace input || input == '\n' then
      (get_token (.Operator v)).bind (fun t => .ok (.Blank, some t))
    else
      ((blank_feed input).unwrap).bind (fun u =>
        (get_token (.Operator v)).bind (fun t => .ok (u.1, some t)))
  | .Ident v kw, input =>
    if is_alphanumeric input || input == '_' then
      if KEYWORD_LIST.contains (v.push input) then .ok (.Ident (v.push input) true, none)
      else .ok (.Ident (v.push input) false, none)
    else if is_operator input then
      (get_token (.Ident v kw)).bind (fun t => .ok (.Operator (String.mk [input]), some t))
    else if (['(', ')', '{', '}'] : List Char).contains input then
      ((blank_feed input).unwrap).bind (fun u =>
        (get_token (.Ident v kw)).bind (fun t => .ok (u.1, some t)))
    else if is_whitespace input || input == '\n' then
      (get_token (.Ident v kw)).bind (fun t => .ok (.Blank, some t))
    else .err .SyntaxError
  | .Float v, input =>
    if is_numeric input then .ok (.Float (v.push input), none)
    else if is_whitespace input || input == '\n' then
      (get_token (.Float v)).bind (fun t => .ok (.Blank, some t))
    else .err .SyntaxError
  | .Number v, input =>
    if is_numeric input then .ok (.Number (v.push input), none)
    else if input == '.' then .ok (.Float (v.push '.'), none)
    else if (['(', ')', '{', '}'] : List Char).contains input then
      ((blank_feed input).unwrap).bind (fun u =>
        (get_token (.Number v)).bind (fun t => .ok (u.1, some t)))
    else if is_whitespace input || input == '\n' then
      (get_token (.Number v)).bind (fun t => .ok (.Blank, some t))
    else .err .SyntaxError
  | .Blank, input => blank_feed input

/-- `ImagineMachine`: owns the single current state. -/
structure ImagineMachine where
  current_state : StateV
deriving DecidableEq, Repr

/-- `ImagineMachine::get_final_token`: the token of the current state. -/
def ImagineMachine.get_final_token (m : ImagineMachine) : TRes Token :=
  get_token m.current_state

/-- `ImagineMachine::feed`: on `Ok` the stored state is replaced by the new
state and the optional token is returned; on `Err` the stored state is left
untouched and the error value is returned unchanged.  The second component is
the machine after the call (`&mut self` in the source). -/
def ImagineMachine.feedSt (m : ImagineMachine) (input : Char) :
    TRes (Option Token) × ImagineMachine :=
  match feed m.current_state input with
  | .ok (new_state, token) => (.ok token, ⟨new_state⟩)
  | .err e => (.err e, m)
  | .panic p => (.panic p, m)

/-- UTF-8 byte size of one character; `String::len` in Rust counts these. -/
def csize (c : Char) : Nat :=
  if c.toNat < 128 then 1 else if c.toNat < 2048 then 2
  else if c.toNat < 65536 then 3 else 4

/-- Rust `String::len`: the UTF-8 byte length of the text. -/
def byteLen (text : List Char) : Nat := (text.map csize).sum

/-- `ImagineLexer`: the source text (as its character sequence), the cursor
`pos`, and the machine.  As in the source, `pos` is compared against the byte
length of the text but used as a character index. -/
structure ImagineLexer where
  text : List Char
  pos : Nat
  machine : ImagineMachine
deriving DecidableEq, Repr

/-- `ImagineLexer::new(text, ImagineMachine::new())`. -/
def mkLexer (text : List Char) : ImagineLexer := ⟨text, 0, ⟨.Blank⟩⟩

/-- Loop body of `ImagineLexer::get_new_token`.  The `while self.pos <
self.text.len()` loop advances `pos` by exactly one per iteration, so the
fuel argument - instantiated with `byteLen text - pos` in `get_new_token`,
and reaching 0 exactly when the loop guard fails - makes the loop
structurally recursive.  `chars().nth(pos)` is the positional lookup and its
`.unwrap()` panics when the lookup yields nothing. -/
def gntAux : ImagineLexer → Nat → TRes ((Token × Bool) × ImagineLexer)
  | L, 0 =>
    match L.machine.get_final_token with
    | .ok t => .ok ((t, true), L)
    | .err e => .err e
    | .panic p => .panic p
  | L, n + 1 =>
    match L.text.get? L.pos with
    | none => .panic .charLookup
    | some input =>
      match L.machine.feedSt input with
      | (.ok (some t), m) => .ok ((t, false), ⟨L.text, L.pos + 1, m⟩)
      | (.ok none, m) => gntAux ⟨L.text, L.pos + 1, m⟩ n
      | (.err e, _) => .err e
      | (.panic p, _) => .panic p

/-- `ImagineLexer::get_new_token`. -/
def get_new_token (L : ImagineLexer) : TRes ((Token × Bool) × ImagineLexer) :=
  gntAux L (byteLen L.text - L.pos)

/-- The `while !is_last` loop of `ImagineLexer::lex`, with the token pending
from the previous `get_new_token` call and the tokens pushed so far.  An
iteration whose `get_new_token` reports the last token is inlined at the call
site (it only pushes the two pending tokens and stops), so that the recursion
happens only when the cursor strictly advanced. -/
def lex_loop (L : ImagineLexer) (tk : Token) (last : Bool) (acc : List Token) :
    TRes (List Token) :=
  if last then .ok (acc ++ [tk])
  else
    match h : get_new_token L with
    | .ok ((tk2, true), _) => .ok ((acc ++ [tk]) ++ [tk2])
    | .ok ((tk2, false), L2) => lex_loop L2 tk2 false (acc ++ [tk])
    | .err e => .err e
    | .panic p => .panic p
termination_by byteLen L.text - L.pos
decreasing_by
  have prog : ∀ (n : Nat) (M : ImagineLexer) (t : Token) (M2 : ImagineLexer),
      gntAux M n = .ok ((t, false), M2) →
      M2.text = M.text ∧ M.pos < M2.pos ∧ M2.pos ≤ M.pos + n := by
    intro n
    induction n with
    | zero =>
      intro M t M2 hM
      simp only [gntAux] at hM
      cases hg : M.machine.get_final_token <;> simp [hg] at hM
    | succ k ih =>
      intro M t M2 hM
      simp only [gntAux] at hM
      cases hget : M.text.get? M.pos <;> simp only [hget] at hM
      · exact absurd hM (by simp)
      · rcases hfs : M.machine.feedSt _ with ⟨tr, m⟩
        rw [hfs] at hM
        cases tr with
        | ok ot =>
          cases ot with
          | some t0 =>
            simp only [TRes.ok.injEq, Prod.mk.injEq] at hM
            rcases hM with ⟨⟨h1, _⟩, h3⟩
            subst h3
            refine ⟨rfl, ?_, ?_⟩ <;> dsimp only <;> omega
          | none =>
            simp only at hM
            obtain ⟨ha, hb, hc⟩ := ih ⟨M.text, M.pos + 1, m⟩ t M2 hM
            dsimp only at ha hb hc
            exact ⟨ha, by omega, by omega⟩
        | err e => simp at hM
        | panic p => simp at hM
  have hp := prog (byteLen L.text - L.pos) L tk2 L2 h
  rcases hp with ⟨h1, h2, h3⟩
  rw [h1]
  omega

/-- `ImagineLexer::lex`. -/
def lex (L : ImagineLexer) : TRes (List Token) :=
  match get_new_token L with
  | .ok ((tk, last), L2) => lex_loop L2 tk last []
  | .err e => .err e
  | .panic p => .panic p

/-- Proof auxiliary: the rest of `lex` when `acc` tokens are already pushed
and the next `get_new_token` call is about to run.  `lex L = lex_from L []`
and the false branch of `lex_loop` steps to `lex_from`. -/
def lex_from (L : ImagineLexer) (acc : List Token) : TRes (List Token) :=
  match get_new_token L with
  | .ok ((tk, true), _) => .ok (acc ++ [tk])
  | .ok ((tk, false), L2) => lex_loop L2 tk false acc
  | .err e => .err e
  | .panic p => .panic p

/-- Reference character-at-a-time lexing: feed every character once, in source
order, to the machine, collect each emitted token, and flush the pending token
of the final state at end of input.  This is the behaviour the driver has on
texts whose byte length equals their character count; the driver claims are
stated against it. -/
def lexChars (s : StateV) (cs : List Char) (acc : List Token) : TRes (List Token) :=
  match cs with
  | [] =>
    match get_token s with
    | .ok t => .ok (acc ++ [t])
    | .err e => .err e
    | .panic p => .panic p
  | c :: rest =>
    match feed s c with
    | .ok (s2, none) => lexChars s2 rest acc
    | .ok (s2, some t) => lexChars s2 rest (acc ++ [t])
    | .err e => .err e
    | .panic p => .panic p

/-- Run the machine over a character list, keeping only the final state. -/
def runMachine (s : StateV) (cs : List Char) : TRes StateV :=
  match cs with
  | [] => .ok s
  | c :: rest =>
    match feed s c with
    | .ok (s2, _) => runMachine s2 rest
    | .err e => .err e
    | .panic p => .panic p

/-- The bracket state entered from `Blank` on a bracket character. -/
def bracket_state (b : Char) : StateV :=
  if b = '(' then .Lpar else if b = ')' then .Rpar
  else if b = '{' then .Lbr else .Rbr

/-- The token that ends a `lex` run after a token-emitting delimiter: the
bracket token for a bracket delimiter, the `Blank` sentinel for whitespace. -/
def delim_token (w : Char) : Token :=
  if w = '(' then .LPAR else if w = ')' then .RPAR
  else if w = '{' then .LBR else if w = '}' then .RBR else .Blank

/-- The input text of the end-to-end scenario. -/
def c1_text : List Char :=
  ("72 3.14 player if player2 36 100 -7 + 8 var += 12 !bool !(2 + 2) block\x7bcode\x7d").data

end Imagine
namespace Imagine

theorem byteLen_cons (c : Char) (cs : List Char) :
    byteLen (c :: cs) = csize c + byteLen cs := by
  simp [byteLen]

theorem byteLen_of_ascii (text : List Char) (h : ∀ c ∈ text, csize c = 1) :
    byteLen text = text.length := by
  induction text with
  | nil => rfl
  | cons c cs ih =>
    rw [byteLen_cons, h c (by simp), ih (fun x hx => h x (by simp [hx]))]
    simp
    omega

theorem length_le_byteLen (text : List Char) : text.length ≤ byteLen text := by
  induction text with
  | nil => simp [byteLen]
  | cons c cs ih =>
    rw [byteLen_cons]
    have hc : 1 ≤ csize c := by unfold csize; split_ifs <;> omega
    simp only [List.length_cons]
    omega

theorem get?_drop_of_lt {α : Type} (l : List α) (n : Nat) (h : n < l.length) :
    ∃ a, l.get? n = some a ∧ l.drop n = a :: l.drop (n + 1) := by
  induction l generalizing n with
  | nil => simp at h
  | cons x xs ih =>
    cases n with
    | zero => exact ⟨x, rfl, rfl⟩
    | succ m =>
      have hm : m < xs.length := by simpa using h
      obtain ⟨a, h1, h2⟩ := ih m hm
      exact ⟨a, h1, by simpa using h2⟩

theorem get?_none_of_ge {α : Type} (l : List α) (n : Nat) (h : l.length ≤ n) :
    l.get? n = none := by
  exact List.get?_eq_none.mpr h

theorem operator_chars (c : Char) (h : is_operator c = true) :
    c ∈ (['+', '-', '=', '/', '*', '!', '<', '>', '~', '|', '&', '^'] : List Char) := by
  simpa [is_operator] using h

theorem whitespace_chars (c : Char) (h : is_whitespace c = true) :
    c = ' ' ∨ c = '\t' ∨ c = '\n' ∨ c = '\x0b' ∨ c = '\x0c' ∨ c = '\r' := by
  have h2 := h
  simp only [is_whitespace, Bool.or_eq_true, beq_iff_eq] at h2
  tauto

theorem keyword_contains (s : String) :
    KEYWORD_LIST.contains s = (s == "if") := by
  cases h : s == "if" <;> simp_all [KEYWORD_LIST, List.contains]

theorem string_push_mk (vl : List Char) (c : Char) :
    (String.mk vl).push c = String.mk (vl ++ [c]) := rfl

theorem singleton_ne_if (c : Char) : (String.mk [c] == "if") = false := by
  simp only [beq_eq_false_iff_ne, ne_eq]
  intro h
  have : [c] = ['i', 'f'] := congrArg String.data h
  simp at this

end Imagine
namespace Imagine

theorem feed_number_digit (v : String) (c : Char) (h : is_numeric c = true) :
    feed (.Number v) c = .ok (.Number (v.push c), none) := by
  simp [feed, h]

theorem feed_operator_op (v : String) (c : Char) (h : is_operator c = true) :
    feed (.Operator v) c = .ok (.Operator (v.push c), none) := by
  simp [feed, h]

theorem feed_ident_alnum (v : String) (kw : Bool) (c : Char)
    (h : (is_alphanumeric c || c == '_') = true) :
    feed (.Ident v kw) c =
      .ok (.Ident (v.push c) (KEYWORD_LIST.contains (v.push c)), none) := by
  cases hc : KEYWORD_LIST.contains (v.push c) <;>
    simp only [feed, h, hc, if_true, if_false, Bool.false_eq_true, ite_true, ite_false,
      Bool.true_eq_false, ite_self]

theorem blank_feed_operator (c : Char) (h : is_operator c = true) :
    blank_feed c = .ok (.Operator (String.mk [c]), none) := by
  have hm := operator_chars c h
  fin_cases hm <;> decide

theorem blank_feed_ws (c : Char) (h : is_whitespace c = true) :
    blank_feed c = .ok (.Blank, none) := by
  rcases whitespace_chars c h with rfl | rfl | rfl | rfl | rfl | rfl <;> decide

theorem blank_feed_bracket (b : Char) (hb : b ∈ (['(', ')', '{', '}'] : List Char)) :
    blank_feed b = .ok (bracket_state b, none) := by
  fin_cases hb <;> decide

theorem get_token_bracket (b : Char) (hb : b ∈ (['(', ')', '{', '}'] : List Char)) :
    get_token (bracket_state b) = .ok (delim_token b) := by
  fin_cases hb <;> decide

theorem feed_operator_ws (v : String) (c : Char) (hw : is_whitespace c = true) :
    feed (.Operator v) c = .ok (.Blank, some (.Operator v)) := by
  rcases whitespace_chars c hw with rfl | rfl | rfl | rfl | rfl | rfl <;>
    simp +decide [feed, get_token, TRes.bind]

theorem feed_number_ws (v : String) (n : Int) (c : Char) (hw : is_whitespace c = true)
    (hp : parse_i32 v = some n) :
    feed (.Number v) c = .ok (.Blank, some (.Number n)) := by
  rcases whitespace_chars c hw with rfl | rfl | rfl | rfl | rfl | rfl <;>
    simp +decide [feed, get_token, TRes.bind, hp]

theorem feed_number_bracket (v : String) (n : Int) (b : Char)
    (hb : b ∈ (['(', ')', '{', '}'] : List Char)) (hp : parse_i32 v = some n) :
    feed (.Number v) b = .ok (bracket_state b, some (.Number n)) := by
  fin_cases hb <;>
    simp +decide [feed, get_token, TRes.bind, TRes.unwrap, hp, bracket_state, blank_feed]

theorem feed_ident_ws (v : String) (kw : Bool) (c : Char) (hw : is_whitespace c = true) :
    feed (.Ident v kw) c =
      .ok (.Blank, some (if kw then Token.Keyword v else Token.Ident v)) := by
  rcases whitespace_chars c hw with rfl | rfl | rfl | rfl | rfl | rfl <;>
    cases kw <;> simp +decide [feed, get_token, TRes.bind]

theorem feed_ident_operator (v : String) (kw : Bool) (c : Char) (ho : is_operator c = true) :
    feed (.Ident v kw) c =
      .ok (.Operator (String.mk [c]), some (if kw then Token.Keyword v else Token.Ident v)) := by
  have hm := operator_chars c ho
  fin_cases hm <;> cases kw <;> simp +decide [feed, get_token, TRes.bind]

theorem feed_ident_bracket (v : String) (kw : Bool) (b : Char)
    (hb : b ∈ (['(', ')', '{', '}'] : List Char)) :
    feed (.Ident v kw) b =
      .ok (bracket_state b, some (if kw then Token.Keyword v else Token.Ident v)) := by
  fin_cases hb <;> cases kw <;>
    simp +decide [feed, get_token, TRes.bind, TRes.unwrap, bracket_state, blank_feed]

theorem feed_float_ws (v : String) (c : Char) (hw : is_whitespace c = true) :
    feed (.Float v) c = .ok (.Blank, some (.Float v)) := by
  rcases whitespace_chars c hw with rfl | rfl | rfl | rfl | rfl | rfl <;>
    simp +decide [feed, get_token, TRes.bind]

end Imagine
namespace Imagine

theorem lex_loop_last (L : ImagineLexer) (tk : Token) (acc : List Token) :
    lex_loop L tk true acc = .ok (acc ++ [tk]) := by
  rw [lex_loop]
  simp

theorem lex_loop_go (L : ImagineLexer) (tk : Token) (acc : List Token) :
    lex_loop L tk false acc = lex_from L (acc ++ [tk]) := by
  rw [lex_loop, lex_from]
  simp only [Bool.false_eq_true, if_false]
  cases hx : get_new_token L with
  | ok v =>
    rcases v with ⟨⟨tk2, last2⟩, L2⟩
    cases last2 <;> rfl
  | err e => rfl
  | panic p => rfl

theorem lex_eq_lex_from (L : ImagineLexer) : lex L = lex_from L [] := by
  unfold lex lex_from
  cases h : get_new_token L with
  | ok v =>
    rcases v with ⟨⟨tk, last⟩, L2⟩
    cases last
    · rfl
    · simp only
      rw [lex_loop_last]
  | err e => rfl
  | panic p => rfl

theorem gnt_end (text : List Char) (pos : Nat) (s : StateV)
    (hpos : byteLen text ≤ pos) :
    get_new_token ⟨text, pos, ⟨s⟩⟩ =
      match get_token s with
      | .ok t => .ok ((t, true), ⟨text, pos, ⟨s⟩⟩)
      | .err e => .err e
      | .panic p => .panic p := by
  unfold get_new_token
  dsimp only
  rw [(by omega : byteLen text - pos = 0)]
  simp only [gntAux, ImagineMachine.get_final_token]

theorem gnt_lookup_panic (text : List Char) (pos : Nat) (s : StateV)
    (hpos : pos < byteLen text) (hget : text.get? pos = none) :
    get_new_token ⟨text, pos, ⟨s⟩⟩ = .panic .charLookup := by
  unfold get_new_token
  dsimp only
  rw [(by omega : byteLen text - pos = (byteLen text - (pos + 1)) + 1)]
  simp only [gntAux]
  rw [hget]

theorem gnt_step (text : List Char) (pos : Nat) (s : StateV) (a : Char)
    (hpos : pos < byteLen text) (hget : text.get? pos = some a) :
    get_new_token ⟨text, pos, ⟨s⟩⟩ =
      match feed s a with
      | .ok (s2, some t) => .ok ((t, false), ⟨text, pos + 1, ⟨s2⟩⟩)
      | .ok (s2, none) => get_new_token ⟨text, pos + 1, ⟨s2⟩⟩
      | .err e => .err e
      | .panic p => .panic p := by
  conv_lhs =>
    unfold get_new_token
  dsimp only
  rw [(by omega : byteLen text - pos = (byteLen text - (pos + 1)) + 1)]
  simp only [gntAux]
  rw [hget]
  simp only [ImagineMachine.feedSt]
  cases hf : feed s a with
  | ok u =>
    rcases u with ⟨s2, ot⟩
    cases ot with
    | some t => rfl
    | none =>
      simp only
      unfold get_new_token
      rfl
  | err e => rfl
  | panic p => rfl

end Imagine
namespace Imagine

theorem lex_from_end (text : List Char) (pos : Nat) (s : StateV) (acc : List Token)
    (hpos : byteLen text ≤ pos) :
    lex_from ⟨text, pos, ⟨s⟩⟩ acc =
      match get_token s with
      | .ok t => .ok (acc ++ [t])
      | .err e => .err e
      | .panic p => .panic p := by
  unfold lex_from
  rw [gnt_end text pos s hpos]
  cases hg : get_token s <;> rfl

theorem lex_from_lookup_panic (text : List Char) (pos : Nat) (s : StateV) (acc : List Token)
    (hpos : pos < byteLen text) (hget : text.get? pos = none) :
    lex_from ⟨text, pos, ⟨s⟩⟩ acc = .panic .charLookup := by
  unfold lex_from
  rw [gnt_lookup_panic text pos s hpos hget]

theorem lex_from_step (text : List Char) (pos : Nat) (s : StateV) (a : Char) (acc : List Token)
    (hpos : pos < byteLen text) (hget : text.get? pos = some a) :
    lex_from ⟨text, pos, ⟨s⟩⟩ acc =
      match feed s a with
      | .ok (s2, none) => lex_from ⟨text, pos + 1, ⟨s2⟩⟩ acc
      | .ok (s2, some t) => lex_from ⟨text, pos + 1, ⟨s2⟩⟩ (acc ++ [t])
      | .err e => .err e
      | .panic p => .panic p := by
  conv_lhs => unfold lex_from
  rw [gnt_step text pos s a hpos hget]
  cases hf : feed s a with
  | ok u =>
    rcases u with ⟨s2, ot⟩
    cases ot with
    | some t =>
      simp only
      rw [lex_loop_go]
    | none =>
      simp only
      rfl
  | err e => rfl
  | panic p => rfl

theorem lex_from_eq_lexChars (n : Nat) :
    ∀ (text : List Char) (pos : Nat) (s : StateV) (acc : List Token),
      (∀ c ∈ text, csize c = 1) → pos ≤ text.length → text.length - pos = n →
      lex_from ⟨text, pos, ⟨s⟩⟩ acc = lexChars s (text.drop pos) acc := by
  induction n with
  | zero =>
    intro text pos s acc hascii hle hn
    have hB : byteLen text = text.length := byteLen_of_ascii text hascii
    have hpos : pos = text.length := by omega
    rw [lex_from_end text pos s acc (by omega)]
    rw [hpos, List.drop_length]
    cases hg : get_token s <;> simp [lexChars, hg]
  | succ k ih =>
    intro text pos s acc hascii hle hn
    have hB : byteLen text = text.length := byteLen_of_ascii text hascii
    have hlt : pos < text.length := by omega
    obtain ⟨a, hget, hdrop⟩ := get?_drop_of_lt text pos hlt
    rw [lex_from_step text pos s a acc (by omega) hget, hdrop]
    cases hf : feed s a with
    | ok u =>
      rcases u with ⟨s2, ot⟩
      cases ot with
      | some t =>
        simp only [lexChars, hf]
        exact ih text (pos + 1) s2 (acc ++ [t]) hascii (by omega) (by omega)
      | none =>
        simp only [lexChars, hf]
        exact ih text (pos + 1) s2 acc hascii (by omega) (by omega)
    | err e => simp [lexChars, hf]
    | panic p => simp [lexChars, hf]

/-- On a text all of whose characters are single-byte, the driver lexes exactly
as the reference character-at-a-time lexer: every character is fed once, in
source order, and the positional lookup never fails. -/
theorem lex_eq_lexChars_of_ascii (text : List Char) (h : ∀ c ∈ text, csize c = 1) :
    lex (mkLexer text) = lexChars .Blank text [] := by
  rw [show mkLexer text = ⟨text, 0, ⟨.Blank⟩⟩ from rfl, lex_eq_lex_from]
  have := lex_from_eq_lexChars text.length text 0 .Blank [] h (by omega) (by omega)
  simpa using this

theorem lex_from_panic_of_multibyte (n : Nat) :
    ∀ (text : List Char) (pos : Nat) (s : StateV) (s2 : StateV) (acc : List Token),
      byteLen text ≠ text.length → pos ≤ text.length → text.length - pos = n →
      runMachine s (text.drop pos) = .ok s2 →
      lex_from ⟨text, pos, ⟨s⟩⟩ acc = .panic .charLookup := by
  induction n with
  | zero =>
    intro text pos s s2 acc hmb hle hn hrun
    have hB : text.length ≤ byteLen text := length_le_byteLen text
    have hpos : pos = text.length := by omega
    exact lex_from_lookup_panic text pos s acc (by omega)
      (get?_none_of_ge text pos (by omega))
  | succ k ih =>
    intro text pos s s2 acc hmb hle hn hrun
    have hB : text.length ≤ byteLen text := length_le_byteLen text
    have hlt : pos < text.length := by omega
    obtain ⟨a, hget, hdrop⟩ := get?_drop_of_lt text pos hlt
    rw [hdrop] at hrun
    rw [lex_from_step text pos s a acc (by omega) hget]
    cases hf : feed s a with
    | ok u =>
      rcases u with ⟨s3, ot⟩
      rw [runMachine, hf] at hrun
      simp only at hrun
      cases ot with
      | some t =>
        simp only
        exact ih text (pos + 1) s3 s2 (acc ++ [t]) hmb (by omega) (by omega) hrun
      | none =>
        simp only
        exact ih text (pos + 1) s3 s2 acc hmb (by omega) (by omega) hrun
    | err e => rw [runMachine, hf] at hrun; simp at hrun
    | panic p => rw [runMachine, hf] at hrun; simp at hrun

/-- On a text whose byte length exceeds its character count (it has a
multi-byte character), the driver panics on the character lookup unwrap,
provided the machine accepts every character of the text. -/
theorem lex_panic_of_multibyte (text : List Char) (s2 : StateV)
    (hmb : byteLen text ≠ text.length) (hrun : runMachine .Blank text = .ok s2) :
    lex (mkLexer text) = .panic .charLookup := by
  rw [show mkLexer text = ⟨text, 0, ⟨.Blank⟩⟩ from rfl, lex_eq_lex_from]
  exact lex_from_panic_of_multibyte text.length text 0 .Blank s2 [] hmb (by omega) (by omega)
    (by simpa using hrun)

end Imagine
namespace Imagine

theorem blank_feed_digit (c : Char) (h : is_numeric c = true) :
    blank_feed c = .ok (.Number (String.mk [c]), none) := by
  simp [blank_feed, h]

theorem alpha_not_numeric (c : Char) (h : (is_alphabetic c || c == '_') = true) :
    is_numeric c = false := by
  have h' : is_alphabetic c = true ∨ (c == '_') = true := by simpa using h
  rcases h' with ha | hu
  · simp only [is_alphabetic, Bool.or_eq_true, Bool.and_eq_true, decide_eq_true_eq,
      Bool.not_eq_true', beq_eq_false_iff_ne, ne_eq] at ha
    cases hn : is_numeric c with
    | false => rfl
    | true =>
      exfalso
      simp only [is_numeric, Bool.and_eq_true, decide_eq_true_eq] at hn
      omega
  · have : c = '_' := by simpa using hu
    subst this
    decide

theorem blank_feed_ident (c : Char) (h : (is_alphabetic c || c == '_') = true) :
    blank_feed c = .ok (.Ident (String.mk [c]) false, none) := by
  simp [blank_feed, alpha_not_numeric c h, h]

theorem csize_of_numeric (c : Char) (h : is_numeric c = true) : csize c = 1 := by
  simp only [is_numeric, Bool.and_eq_true, decide_eq_true_eq] at h
  unfold csize
  rw [if_pos (by omega)]

theorem csize_of_operator (c : Char) (h : is_operator c = true) : csize c = 1 := by
  have hm := operator_chars c h
  fin_cases hm <;> decide

theorem csize_of_ws (c : Char) (h : is_whitespace c = true) : csize c = 1 := by
  rcases whitespace_chars c h with rfl | rfl | rfl | rfl | rfl | rfl <;> decide

theorem csize_of_bracket (b : Char) (hb : b ∈ (['(', ')', '{', '}'] : List Char)) :
    csize b = 1 := by
  fin_cases hb <;> decide

theorem delim_token_ws (w : Char) (h : is_whitespace w = true) :
    delim_token w = .Blank := by
  rcases whitespace_chars w h with rfl | rfl | rfl | rfl | rfl | rfl <;> decide

theorem delim_token_not_number (w : Char)
    (hw : is_whitespace w = true ∨ w ∈ (['(', ')', '{', '}'] : List Char)) :
    ∀ n : Int, delim_token w ≠ .Number n := by
  intro n
  rcases hw with h | h
  · rw [delim_token_ws w h]; simp
  · fin_cases h <;> simp [delim_token]

theorem parse_digits (ds : List Char) (h1 : ds ≠ []) (h2 : ∀ c ∈ ds, is_numeric c = true)
    (h3 : digitsToNat ds ≤ 2147483647) :
    parse_i32 (String.mk ds) = some ((digitsToNat ds : Int)) := by
  unfold parse_i32
  rw [if_pos]
  refine ⟨h1, ?_, h3⟩
  rw [List.all_eq_true]
  exact h2

theorem lexChars_number_run (ds : List Char) :
    ∀ (vl rest : List Char) (acc : List Token),
      (∀ c ∈ ds, is_numeric c = true) →
      lexChars (.Number (String.mk vl)) (ds ++ rest) acc =
        lexChars (.Number (String.mk (vl ++ ds))) rest acc := by
  induction ds with
  | nil => intro vl rest acc _; simp
  | cons d ds2 ih =>
    intro vl rest acc h
    simp only [List.cons_append, lexChars]
    rw [feed_number_digit _ d (h d (by simp)), string_push_mk]
    show lexChars (.Number (String.mk (vl ++ [d]))) (ds2 ++ rest) acc =
      lexChars (.Number (String.mk (vl ++ d :: ds2))) rest acc
    rw [ih (vl ++ [d]) rest acc (fun c hc => h c (by simp [hc]))]
    simp

theorem lexChars_operator_run (os : List Char) :
    ∀ (vl rest : List Char) (acc : List Token),
      (∀ c ∈ os, is_operator c = true) →
      lexChars (.Operator (String.mk vl)) (os ++ rest) acc =
        lexChars (.Operator (String.mk (vl ++ os))) rest acc := by
  induction os with
  | nil => intro vl rest acc _; simp
  | cons o os2 ih =>
    intro vl rest acc h
    simp only [List.cons_append, lexChars]
    rw [feed_operator_op _ o (h o (by simp)), string_push_mk]
    show lexChars (.Operator (String.mk (vl ++ [o]))) (os2 ++ rest) acc =
      lexChars (.Operator (String.mk (vl ++ o :: os2))) rest acc
    rw [ih (vl ++ [o]) rest acc (fun c hc => h c (by simp [hc]))]
    simp

theorem runMachine_ident_run (tail : List Char) :
    ∀ (vl : List Char) (kw : Bool) (c : Char),
      (is_alphanumeric c || c == '_') = true →
      (∀ x ∈ tail, (is_alphanumeric x || x == '_') = true) →
      runMachine (.Ident (String.mk vl) kw) (c :: tail) =
        .ok (.Ident (String.mk (vl ++ c :: tail))
          (KEYWORD_LIST.contains (String.mk (vl ++ c :: tail)))) := by
  induction tail with
  | nil =>
    intro vl kw c hc _
    rw [runMachine, feed_ident_alnum _ _ _ hc, string_push_mk]
    simp [runMachine]
  | cons d tail2 ih =>
    intro vl kw c hc h
    rw [runMachine, feed_ident_alnum _ _ _ hc, string_push_mk]
    show runMachine (.Ident (String.mk (vl ++ [c]))
        (KEYWORD_LIST.contains (String.mk (vl ++ [c])))) (d :: tail2) = _
    rw [ih (vl ++ [c]) _ d (h d (by simp)) (fun x hx => h x (by simp [hx]))]
    simp

end Imagine
namespace Imagine

theorem lex_digits_delim (ds : List Char) (w : Char) (h1 : ds ≠ [])
    (h2 : ∀ c ∈ ds, is_numeric c = true) (h3 : digitsToNat ds ≤ 2147483647)
    (hw : is_whitespace w = true ∨ w ∈ (['(', ')', '{', '}'] : List Char)) :
    lex (mkLexer (ds ++ [w])) = .ok [.Number ((digitsToNat ds : Nat) : Int), delim_token w] := by
  have hascii : ∀ c ∈ ds ++ [w], csize c = 1 := by
    intro c hc
    rcases List.mem_append.mp hc with h | h
    · exact csize_of_numeric c (h2 c h)
    · have hcw : c = w := by simpa using h
      subst hcw
      rcases hw with h' | h'
      · exact csize_of_ws c h'
      · exact csize_of_bracket c h'
  rw [lex_eq_lexChars_of_ascii _ hascii]
  obtain ⟨d, ds2, rfl⟩ : ∃ d ds2, ds = d :: ds2 := by
    cases ds with
    | nil => exact absurd rfl h1
    | cons x xs => exact ⟨x, xs, rfl⟩
  have hparse : parse_i32 (String.mk ([d] ++ ds2)) = some ((digitsToNat (d :: ds2) : Int)) := by
    have hp := parse_digits (d :: ds2) h1 h2 h3
    simpa using hp
  simp only [List.cons_append, lexChars]
  rw [show feed .Blank d = blank_feed d from rfl, blank_feed_digit d (h2 d (by simp))]
  show lexChars (.Number (String.mk [d])) (ds2 ++ [w]) [] = _
  rw [lexChars_number_run ds2 [d] [w] [] (fun c hc => h2 c (by simp [hc]))]
  rcases hw with h' | h'
  · simp only [lexChars]
    rw [feed_number_ws _ _ w h' hparse]
    show lexChars .Blank [] [Token.Number ((digitsToNat (d :: ds2) : Int))] = _
    simp [lexChars, get_token, delim_token_ws w h']
  · simp only [lexChars]
    rw [feed_number_bracket _ _ w h' hparse]
    show lexChars (bracket_state w) [] [Token.Number ((digitsToNat (d :: ds2) : Int))] = _
    simp [lexChars, get_token_bracket w h']

end Imagine
namespace Imagine

/-- C1: Calling lex on the exact scenario text succeeds and returns exactly the
26 expected tokens, in order, with no additional tokens.  The Float token's
payload is the lexeme text "3.14", which the source parses to the f32 written
3.14 in the claim. -/
theorem c1_end_to_end :
    lex (mkLexer c1_text) = .ok [
      .Number 72, .Float "3.14", .Ident "player", .Keyword "if", .Ident "player2",
      .Number 36, .Number 100, .Operator "-", .Number 7, .Operator "+", .Number 8,
      .Ident "var", .Operator "+=", .Number 12, .Operator "!", .Ident "bool",
      .Operator "!", .LPAR, .Number 2, .Operator "+", .Number 2, .RPAR,
      .Ident "block", .LBR, .Ident "code", .RBR] := by
  rw [lex_eq_lexChars_of_ascii c1_text (by decide)]
  decide

/-- C9: lex on the empty string returns a sequence containing only the Blank
sentinel token of the Empty state, and does not crash. -/
theorem c9_empty_input : lex (mkLexer []) = .ok [.Blank] := by
  rw [lex_eq_lexChars_of_ascii [] (by simp)]
  decide

/-- C2: the claim says an inapplicable character always yields the Syntax
error; but in the Operator state and in a bracket state the code re-dispatches
through Blank::feed and unwraps its Result, so a character inapplicable to
Blank as well (such as a dot) panics on the unwrap instead of returning the
error: feeding a dot to the Operator("+") state or to the Lpar state panics,
and lex of "+." or "(." panics rather than returning a Syntax error. -/
theorem c2_inapplicable_char_panics :
    feed (.Operator "+") '.' = .panic .unwrapErr ∧
    feed .Lpar '.' = .panic .unwrapErr ∧
    lex (mkLexer ['+', '.']) = .panic .unwrapErr ∧
    lex (mkLexer ['(', '.']) = .panic .unwrapErr := by
  refine ⟨by decide, by decide, by decide, by decide⟩

/-- C3 counterexample: after the run "if" has matched the keyword set (flag
true), appending the alphanumeric character x reverts the classification: the
new state carries the flag false and lexing "ifx " emits Ident("ifx"), not a
Keyword token. -/
theorem c3_keyword_counterexample :
    feed (.Ident "if" true) 'x' = .ok (.Ident "ifx" false, none) ∧
    lex (mkLexer ['i', 'f', 'x', ' ']) = .ok [.Ident "ifx", .Blank] := by
  constructor
  · decide
  · rw [lex_eq_lexChars_of_ascii _ (by decide)]
    decide

/-- C3 amended: the keyword flag is recomputed from scratch on every appended
alphanumeric-or-underscore character as membership of the whole new run in the
keyword set, so a run that has matched the set reverts to Ident classification
as soon as a further character takes it out of the set. -/
theorem c3_keyword_amended (v : String) (kw : Bool) (c : Char)
    (h : (is_alphanumeric c || c == '_') = true) :
    feed (.Ident v kw) c =
      .ok (.Ident (v.push c) (KEYWORD_LIST.contains (v.push c)), none) :=
  feed_ident_alnum v kw c h

/-- Witness for C3 amended at the concrete state Ident("if", true) and the
concrete character x. -/
theorem c3_keyword_amended_witness :
    feed (.Ident "if" true) 'x' = .ok (.Ident "ifx" false, none) := by
  have h := c3_keyword_amended "if" true 'x' (by decide)
  rw [h]
  decide

/-- C5: when a transition fails, the machine's stored state is exactly what it
was before the call and the error value is returned unchanged; lex then aborts
at the first error, returning it and discarding the tokens already pushed. -/
theorem c5_error_propagation :
    (∀ (s : StateV) (c : Char) (e : Errors),
        feed s c = .err e → ImagineMachine.feedSt ⟨s⟩ c = (.err e, ⟨s⟩)) ∧
    (∀ (text : List Char) (pos : Nat) (s : StateV) (a : Char) (e : Errors),
        pos < byteLen text → text.get? pos = some a → feed s a = .err e →
        get_new_token ⟨text, pos, ⟨s⟩⟩ = .err e) ∧
    (∀ (L : ImagineLexer) (e : Errors), get_new_token L = .err e →
        lex L = .err e ∧
        ∀ (tk : Token) (acc : List Token), lex_loop L tk false acc = .err e) := by
  refine ⟨?_, ?_, ?_⟩
  · intro s c e h
    unfold ImagineMachine.feedSt
    dsimp only
    rw [h]
  · intro text pos s a e hpos hget h
    rw [gnt_step text pos s a hpos hget, h]
  · intro L e h
    constructor
    · unfold lex
      rw [h]
    · intro tk acc
      rw [lex_loop_go]
      unfold lex_from
      rw [h]

/-- Witness for C5 at the Blank state fed a dot, and at lexing the text
consisting of a single dot. -/
theorem c5_error_propagation_witness :
    ImagineMachine.feedSt ⟨.Blank⟩ '.' = (.err .SyntaxError, ⟨.Blank⟩) ∧
    get_new_token ⟨['.'], 0, ⟨.Blank⟩⟩ = .err .SyntaxError ∧
    lex (mkLexer ['.']) = .err .SyntaxError := by
  refine ⟨?_, ?_, ?_⟩
  · exact c5_error_propagation.1 .Blank '.' .SyntaxError (by decide)
  · exact c5_error_propagation.2.1 ['.'] 0 .Blank '.' .SyntaxError (by decide) (by decide)
      (by decide)
  · exact (c5_error_propagation.2.2 (mkLexer ['.']) .SyntaxError (by decide)).1

end Imagine
namespace Imagine

/-- C4: for every identifier-shaped run (a letter or underscore followed by
alphanumeric or underscore characters) the machine reaches the Ident state
carrying the run with its keyword flag set exactly when the run is in the
built-in keyword set (i.e. equals "if"), and feeding any terminating delimiter
(whitespace, an operator character, or a bracket) emits the Keyword token for
the run when it is in the set and the Ident token otherwise. -/
theorem c4_keyword_vs_ident (c0 : Char) (rest : List Char) (d : Char)
    (h0 : (is_alphabetic c0 || c0 == '_') = true)
    (hr : ∀ c ∈ rest, (is_alphanumeric c || c == '_') = true)
    (hd : is_whitespace d = true ∨ is_operator d = true ∨
      d ∈ (['(', ')', '{', '}'] : List Char)) :
    ∃ s2 : StateV,
      runMachine .Blank (c0 :: rest) =
        .ok (.Ident (String.mk (c0 :: rest)) (String.mk (c0 :: rest) == "if")) ∧
      feed (.Ident (String.mk (c0 :: rest)) (String.mk (c0 :: rest) == "if")) d =
        .ok (s2, some (if String.mk (c0 :: rest) = "if"
            then Token.Keyword (String.mk (c0 :: rest))
            else Token.Ident (String.mk (c0 :: rest)))) := by
  have hrun : runMachine .Blank (c0 :: rest) =
      .ok (.Ident (String.mk (c0 :: rest)) (String.mk (c0 :: rest) == "if")) := by
    rw [runMachine, show feed .Blank c0 = blank_feed c0 from rfl, blank_feed_ident c0 h0]
    show runMachine (.Ident (String.mk [c0]) false) rest = _
    cases rest with
    | nil =>
      rw [runMachine, singleton_ne_if c0]
    | cons r rest2 =>
      rw [runMachine_ident_run rest2 [c0] false r (hr r (by simp))
        (fun x hx => hr x (by simp [hx]))]
      rw [keyword_contains]
      simp
  have htok : ∀ kwb : Bool, kwb = (String.mk (c0 :: rest) == "if") →
      (if kwb then Token.Keyword (String.mk (c0 :: rest))
        else Token.Ident (String.mk (c0 :: rest))) =
      (if String.mk (c0 :: rest) = "if" then Token.Keyword (String.mk (c0 :: rest))
        else Token.Ident (String.mk (c0 :: rest))) := by
    intro kwb hk
    subst hk
    by_cases hv : String.mk (c0 :: rest) = "if" <;> simp [hv]
  rcases hd with h' | h' | h'
  · refine ⟨.Blank, hrun, ?_⟩
    rw [feed_ident_ws _ _ d h', htok _ rfl]
  · refine ⟨.Operator (String.mk [d]), hrun, ?_⟩
    rw [feed_ident_operator _ _ d h', htok _ rfl]
  · refine ⟨bracket_state d, hrun, ?_⟩
    rw [feed_ident_bracket _ _ d h', htok _ rfl]

/-- Witness for C4 at the concrete run "if" terminated by a space: the machine
reaches Ident("if") with the keyword flag true and emits Keyword("if"). -/
theorem c4_keyword_vs_ident_witness :
    ∃ s2 : StateV,
      runMachine .Blank ['i', 'f'] =
        .ok (.Ident (String.mk ['i', 'f']) (String.mk ['i', 'f'] == "if")) ∧
      feed (.Ident (String.mk ['i', 'f']) (String.mk ['i', 'f'] == "if")) ' ' =
        .ok (s2, some (if String.mk ['i', 'f'] = "if"
            then Token.Keyword (String.mk ['i', 'f'])
            else Token.Ident (String.mk ['i', 'f']))) :=
  c4_keyword_vs_ident 'i' ['f'] ' ' (by decide) (by decide) (Or.inl (by decide))

/-- C6: operator accumulation is greedy and maximal: lexing a maximal run of
operator characters followed by whitespace emits exactly one Operator token
carrying the whole run (followed only by the Blank end-of-input sentinel),
never one token per character. -/
theorem c6_operator_greedy (ops : List Char) (w : Char) (h1 : ops ≠ [])
    (h2 : ∀ c ∈ ops, is_operator c = true) (hw : is_whitespace w = true) :
    lex (mkLexer (ops ++ [w])) = .ok [.Operator (String.mk ops), .Blank] := by
  have hascii : ∀ c ∈ ops ++ [w], csize c = 1 := by
    intro c hc
    rcases List.mem_append.mp hc with h | h
    · exact csize_of_operator c (h2 c h)
    · have hcw : c = w := by simpa using h
      subst hcw
      exact csize_of_ws c hw
  rw [lex_eq_lexChars_of_ascii _ hascii]
  obtain ⟨o, ops2, rfl⟩ : ∃ o ops2, ops = o :: ops2 := by
    cases ops with
    | nil => exact absurd rfl h1
    | cons x xs => exact ⟨x, xs, rfl⟩
  simp only [List.cons_append, lexChars]
  rw [show feed .Blank o = blank_feed o from rfl, blank_feed_operator o (h2 o (by simp))]
  show lexChars (.Operator (String.mk [o])) (ops2 ++ [w]) [] = _
  rw [lexChars_operator_run ops2 [o] [w] [] (fun c hc => h2 c (by simp [hc]))]
  simp only [lexChars]
  rw [feed_operator_ws _ w hw]
  show lexChars .Blank [] [Token.Operator (String.mk ([o] ++ ops2))] = _
  simp [lexChars, get_token]

/-- Witness for C6 at the concrete run "+=" followed by a space: a single
Operator("+=") token, never Operator("+") and Operator("="). -/
theorem c6_operator_greedy_witness :
    lex (mkLexer ['+', '=', ' ']) = .ok [.Operator "+=", .Blank] := by
  have h := c6_operator_greedy ['+', '='] ' ' (by decide) (by decide) (by decide)
  exact h

end Imagine
namespace Imagine

/-- C7 counterexample: the claim quantifies over every digit run, but on the
run "2147483648" (one past i32::MAX) followed by a right parenthesis the
Number token conversion panics on the i32 parse unwrap, so lexing emits no
tokens at all instead of the Number-then-bracket pair. -/
theorem c7_number_bracket_counterexample :
    lex (mkLexer ['2', '1', '4', '7', '4', '8', '3', '6', '4', '8', ')']) =
      .panic .parseIntFail := by
  decide

/-- C7 amended: for every nonempty digit run whose value fits in i32,
immediately followed by a bracket character with no intervening whitespace,
the Number transition on the bracket emits the Number token and moves directly
into the corresponding bracket state, and lexing the run plus the bracket
yields exactly the Number token followed by the matching bracket token. -/
theorem c7_number_bracket_amended (ds : List Char) (b : Char) (h1 : ds ≠ [])
    (h2 : ∀ c ∈ ds, is_numeric c = true) (h3 : digitsToNat ds ≤ 2147483647)
    (hb : b ∈ (['(', ')', '{', '}'] : List Char)) :
    feed (.Number (String.mk ds)) b =
      .ok (bracket_state b, some (.Number ((digitsToNat ds : Nat) : Int))) ∧
    lex (mkLexer (ds ++ [b])) =
      .ok [.Number ((digitsToNat ds : Nat) : Int), delim_token b] := by
  constructor
  · exact feed_number_bracket _ _ b hb (parse_digits ds h1 h2 h3)
  · exact lex_digits_delim ds b h1 h2 h3 (Or.inr hb)

/-- Witness for C7 amended at the concrete input "12)": exactly
Number(12) followed by RightParen. -/
theorem c7_number_bracket_witness :
    lex (mkLexer ['1', '2', ')']) = .ok [.Number 12, .RPAR] := by
  have h := (c7_number_bracket_amended ['1', '2'] ')' (by decide) (by decide)
    (by decide) (by decide)).2
  exact h

/-- C8 counterexample: the claim asserts success for every digit string with
no bound on magnitude, but on "2147483648" (one past i32::MAX) followed by a
space the i32 parse unwrap panics, so lex does not return at all. -/
theorem c8_number_value_counterexample :
    lex (mkLexer ['2', '1', '4', '7', '4', '8', '3', '6', '4', '8', ' ']) =
      .panic .parseIntFail := by
  decide

/-- C8 amended: for every nonempty digit string whose denoted value is at most
i32::MAX = 2147483647, followed by a delimiter (whitespace or a bracket), lex
succeeds and produces exactly one Number token, carrying that value, followed
only by the delimiter's own token (the Blank sentinel or the bracket token),
which is never a Number. -/
theorem c8_number_value_amended (ds : List Char) (w : Char) (h1 : ds ≠ [])
    (h2 : ∀ c ∈ ds, is_numeric c = true) (h3 : digitsToNat ds ≤ 2147483647)
    (hw : is_whitespace w = true ∨ w ∈ (['(', ')', '{', '}'] : List Char)) :
    lex (mkLexer (ds ++ [w])) = .ok [.Number ((digitsToNat ds : Nat) : Int), delim_token w] ∧
    ∀ n : Int, delim_token w ≠ .Number n := by
  constructor
  · exact lex_digits_delim ds w h1 h2 h3 hw
  · exact delim_token_not_number w hw

/-- Witness for C8 amended at the concrete digit string "36" followed by a
space: exactly one Number token with value 36, then the Blank sentinel. -/
theorem c8_number_value_witness :
    lex (mkLexer ['3', '6', ' ']) = .ok [.Number 36, .Blank] ∧
    ∀ n : Int, delim_token ' ' ≠ .Number n := by
  have h := c8_number_value_amended ['3', '6'] ' ' (by decide) (by decide) (by decide)
    (Or.inl (by decide))
  exact ⟨h.1, h.2⟩

/-- C10 counterexample: the claim says any text containing a multi-byte
character makes the driver panic on the lookup unwrap; but on the text
consisting of the single three-byte character the euro sign, the machine
rejects the character first, so lex returns a Syntax error rather than
panicking. -/
theorem c10_driver_counterexample :
    byteLen ['€'] ≠ List.length ['€'] ∧
    lex (mkLexer ['€']) = .err .SyntaxError := by
  exact ⟨by decide, by decide⟩

/-- C10 amended: the driver's loop bound is the byte length of the text while
its cursor counts characters.  On a text all of whose characters are
single-byte the two coincide: lex feeds each character to the machine exactly
once in source order and the lookup never fails (lex behaves exactly as the
reference character-at-a-time lexer).  On a text whose byte length exceeds its
character count, if the machine accepts every character, the driver walks past
the last character and panics on the chars().nth(pos) unwrap instead of
returning Ok or Err. -/
theorem c10_driver_amended :
    (∀ text : List Char, (∀ c ∈ text, csize c = 1) →
      lex (mkLexer text) = lexChars .Blank text []) ∧
    (∀ (text : List Char) (s2 : StateV), byteLen text ≠ text.length →
      runMachine .Blank text = .ok s2 → lex (mkLexer text) = .panic .charLookup) :=
  ⟨lex_eq_lexChars_of_ascii, fun text s2 h1 h2 => lex_panic_of_multibyte text s2 h1 h2⟩

/-- Witness for C10 amended: on the single-byte text "1 " lex agrees with the
character-at-a-time reference, and on the two-byte letter e-acute (accepted by
the machine as an identifier character) lex panics on the lookup. -/
theorem c10_driver_amended_witness :
    lex (mkLexer ['1', ' ']) = lexChars .Blank ['1', ' '] [] ∧
    lex (mkLexer ['é']) = .panic .charLookup := by
  constructor
  · exact c10_driver_amended.1 ['1', ' '] (by decide)
  · exact c10_driver_amended.2 ['é'] (.Ident (String.mk ['é']) false) (by decide) (by decide)

end Imagine
